import Mathlib

/-!
Shallow embedding of the `txtimg` crate (`src/crates/txtimg/src/lib.rs`):
an image-to-text-art rendering pipeline.  Machine integers are modelled as
`Nat` with explicit `% 2^w` where the source performs narrowing casts or
where fixed-width arithmetic could wrap.  The image-resize collaborator
(`DynamicImage::thumbnail_exact` + `into_rgb8`) is external to the crate;
its output raster is modelled as a sample function `Nat → Nat → RGB`.
-/

namespace Txtimg

/-- An RGB8 triple `(r, g, b)`; channel values are `Nat`s that are `< 256`
wherever the source type is `u8`. -/
abbrev RGB := Nat × Nat × Nat

/-- The fixed glyph palette, ordered sparse→dense
(`const PALETTE: &[char] = &[' ', '.', ':', ';', '+', 'o', 'O', '&', '@', '#']`). -/
def PALETTE : List Char := [' ', '.', ':', ';', '+', 'o', 'O', '&', '@', '#']

/-- `pallete::rgb`: destructures an `Rgb<u8>` pixel into its `(r, g, b)` triple. -/
def rgb : RGB → RGB
  | (r, g, b) => (r, g, b)

/-- `pallete::luminance`: the channels are widened to `u16` and the source
computes `((r << 1) + r + (g << 2) + b) >> 3`, finally cast back with
`as u8`.  Every `u16` operation wraps mod `2^16`; the `as u8` cast is
`% 256`. -/
def luminance : RGB → Nat
  | (r, g, b) =>
    (((((((r <<< 1) % 65536 + r) % 65536) + ((g <<< 2) % 65536)) % 65536 + b) % 65536) >>> 3) % 256

/-- `pallete::get_char`: the source computes
`idx = luminance as f32 / (u8::MAX as f32 / PALETTE.len() as f32)` and
truncates with `as usize`, then indexes `PALETTE[idx.clamp(0, PALETTE.len()-1)]`.
For `l ≤ 255` the `f32` computation equals exact `Nat` division `2*l / 51`:
`u8::MAX as f32 / 10.0` is exactly `25.5` (both operands and the quotient are
representable), and `l / 25.5 = 2*l/51` is either an exact integer (when
`51 ∣ 2*l`, quotient `≤ 10`, exactly representable) or at distance `≥ 1/51`
from every integer, far beyond the `≤ 6e-7` absolute rounding error of one
`f32` division of values `≤ 10`, so truncation is unaffected.  Rust's
`clamp(0, hi)` is `min (max · 0) hi`; the source's panicking index is in
bounds after the clamp, so `getD`'s default is unreachable. -/
def get_char (l : Nat) : Char :=
  let idx := 2 * l / 51
  PALETTE.getD (min (max idx 0) (PALETTE.length - 1)) ' '

/-- Modelled from the spec (for refinement comparison only, not from the
source): bucket index `floor(luminance / (256/N))` with `N = PALETTE.len()`,
clamped to `[0, N-1]`; for `N = 10` the divisor is `25.6`, so the index is
`floor(l * 10 / 256)`. -/
def get_char_spec (l : Nat) : Char :=
  PALETTE.getD (min (max (l * 10 / 256) 0) (PALETTE.length - 1)) ' '

/-- `Options { width: u32, height: u32 }`. -/
structure Options where
  width : Nat
  height : Nat

/-- `Pixel { c: char, b: Option<(u8,u8,u8)>, f: Option<(u8,u8,u8)> }`. -/
structure Pixel where
  c : Char
  b : Option RGB
  f : Option RGB
deriving DecidableEq

/-- `TextImage { width: u32, height: u32, pixels: Vec<Pixel> }`. -/
structure TextImage where
  width : Nat
  height : Nat
  pixels : List Pixel

/-- `TextImage::from_image`.  `img` is the exact-dimension raster returned by
the external resize collaborator (`thumbnail_exact(width, height)` followed
by `into_rgb8`), sampled as `img x y`.  The nested `for y { for x { push } }`
loop is the row-major join below. -/
def from_image (img : Nat → Nat → RGB) (opts : Options) : TextImage :=
  let width := opts.width
  let height := opts.height
  let pixels : List Pixel :=
    ((List.range height).map (fun y =>
      (List.range width).map (fun x =>
        let p := img x y
        let color := rgb p
        let b := some color
        let f : Option RGB := none
        let c := if f.isSome then get_char (luminance p) else ' '
        { c := c, b := b, f := f }))).flatten
  { width := width, height := height, pixels := pixels }

/-- Default used to totalise the `Vec` index in `to_buffer`; the source's
`self.pixels[idx]` panics out of bounds, and the constructor maintains
`cells.len() == width * height`, which keeps every index in range, so this
default is unreachable there. -/
def dfltPixel : Pixel := { c := ' ', b := none, f := none }

/-- Modelled from the spec: the truecolor foreground escape emitted by the
external styling helper (the `colored` crate, outside this repository):
`ESC[38;2;{r};{g};{b}m`, decimal channel values rendered like Rust's
integer `Display`. -/
def fgEscape (r g b : Nat) : List Char :=
  "\x1b[38;2;".data ++ (Nat.repr r).data ++ ";".data ++ (Nat.repr g).data
    ++ ";".data ++ (Nat.repr b).data ++ "m".data

/-- Modelled from the spec: the truecolor background escape
`ESC[48;2;{r};{g};{b}m`. -/
def bgEscape (r g b : Nat) : List Char :=
  "\x1b[48;2;".data ++ (Nat.repr r).data ++ ";".data ++ (Nat.repr g).data
    ++ ";".data ++ (Nat.repr b).data ++ "m".data

/-- Modelled from the spec: the SGR reset `ESC[0m` closing each styled run. -/
def sgrReset : List Char := "\x1b[0m".data

/-- One cell of `to_buffer`'s output: the source's four-way `match (f, b)`.
The colored-crate emissions (`truecolor`, `on_truecolor`) are modelled from
the spec's table: foreground escape, then background escape, then glyph,
then reset, each cell an independently reset styled run. -/
def renderPixel (p : Pixel) : List Char :=
  match p.f, p.b with
  | some (fr, fg, fb), some (br, bg, bb) =>
      fgEscape fr fg fb ++ bgEscape br bg bb ++ [p.c] ++ sgrReset
  | some (r, g, b), none => fgEscape r g b ++ [p.c] ++ sgrReset
  | none, some (r, g, b) => bgEscape r g b ++ [p.c] ++ sgrReset
  | none, none => [p.c]

/-- `TextImage::to_buffer`: appends to `buffer`, row by row (`y` outer, `x`
inner, index `y * width + x`), pushing `'\r'` then `'\n'` after each row.
The Rust `String` buffer is modelled as its character sequence. -/
def to_buffer (t : TextImage) (buffer : List Char) : List Char :=
  (List.range t.height).foldl
    (fun buf y =>
      ((List.range t.width).foldl
        (fun buf2 x => buf2 ++ renderPixel (t.pixels.getD (y * t.width + x) dfltPixel)) buf)
      ++ ['\r', '\n'])
    buffer

/-- The cell content of row `y` of the rendering, without the terminator. -/
def rowRender (t : TextImage) (y : Nat) : List Char :=
  ((List.range t.width).map
    (fun x => renderPixel (t.pixels.getD (y * t.width + x) dfltPixel))).flatten

/-- Number of occurrences of the two-character pattern `"\r\n"`. -/
def countCRLF : List Char → Nat
  | [] => 0
  | [_] => 0
  | a :: b :: rest => (if a = '\r' ∧ b = '\n' then 1 else 0) + countCRLF (b :: rest)

/-! ### Luminance: claims C3 and C9 -/

/-- On `u8` channel values the `u16` arithmetic of `luminance` never wraps and
the result is exact integer `(3r + 4g + b) / 8`. -/
theorem luminance_eq (r g b : Nat) (hr : r < 256) (hg : g < 256) (hb : b < 256) :
    luminance (r, g, b) = (r * 3 + g * 4 + b) / 8 := by
  simp only [luminance, Nat.shiftLeft_eq, Nat.shiftRight_eq_div_pow]
  norm_num
  omega

/-- Claim C3: for 8-bit channels `r`, `g`, `b`, `luminance` equals
`(r*3 + g*4 + b) >> 3`, the intermediate sum stays below `2^16` (the `u16`
width, so no overflow), and the result lies in `0..=255`.  `luminance` is a
plain total function of the triple. -/
theorem luminance_formula_range (r g b : Nat) (hr : r < 256) (hg : g < 256) (hb : b < 256) :
    luminance (r, g, b) = (r * 3 + g * 4 + b) / 8 ∧
    r * 3 + g * 4 + b < 65536 ∧
    luminance (r, g, b) < 256 := by
  refine ⟨luminance_eq r g b hr hg hb, by omega, ?_⟩
  rw [luminance_eq r g b hr hg hb]
  omega

/-- Witness for C3: a fully saturated-grey sample evaluates as claimed. -/
theorem luminance_formula_range_witness :
    luminance (250, 250, 250) = 250 ∧ luminance (250, 250, 250) < 256 :=
  ⟨(luminance_formula_range 250 250 250 (by decide) (by decide) (by decide)).1,
   (luminance_formula_range 250 250 250 (by decide) (by decide) (by decide)).2.2⟩

/-- Claim C9 counterexample: the claim orders luminance by `2r + 4g + b`, but
the source weighs red by 3 (`(r << 1) + r`).  With `(255,0,0)` and `(0,127,2)`
we have `2·255 + 0 + 0 = 510 ≤ 510 = 0 + 4·127 + 2`, yet
`luminance (255,0,0) = 95 > 63 = luminance (0,127,2)`. -/
theorem luminance_not_monotone_claimed_weights :
    2 * 255 + 4 * 0 + 0 ≤ 2 * 0 + 4 * 127 + 2 ∧
    luminance (255, 0, 0) = 95 ∧ luminance (0, 127, 2) = 63 ∧
    ¬ luminance (255, 0, 0) ≤ luminance (0, 127, 2) := by decide

/-- Claim C9 (amended): for 8-bit channels, `luminance` lies in `[0, 255]` and
is monotone non-decreasing in the weighted sum `3r + 4g + b` (the source's
weights are red 3, green 4, blue 1 — not red 2 as the claim states). -/
theorem luminance_monotone_weights (ra ga ba rb gb bb : Nat)
    (ha : ra < 256 ∧ ga < 256 ∧ ba < 256) (hb : rb < 256 ∧ gb < 256 ∧ bb < 256)
    (hle : 3 * ra + 4 * ga + ba ≤ 3 * rb + 4 * gb + bb) :
    luminance (ra, ga, ba) ≤ luminance (rb, gb, bb) ∧ luminance (ra, ga, ba) ≤ 255 := by
  rw [luminance_eq ra ga ba ha.1 ha.2.1 ha.2.2, luminance_eq rb gb bb hb.1 hb.2.1 hb.2.2]
  omega

/-- Witness for the amended C9 at concrete triples. -/
theorem luminance_monotone_weights_witness :
    luminance (10, 20, 30) ≤ luminance (40, 50, 60) ∧ luminance (10, 20, 30) ≤ 255 :=
  luminance_monotone_weights 10 20 30 40 50 60 (by decide) (by decide) (by decide)

/-! ### Palette bucketing: claims C4 and C5 -/

/-- Claim C4 counterexample: the claim's bucket divisor is `256/N = 25.6`
(index `floor(l·10/256)`), but the source divides by `u8::MAX/N = 25.5`
(index `floor(2l/51)`).  At `l = 51` the source yields index 2 (`':'`) while
the claimed formula yields index 1 (`'.'`). -/
theorem get_char_spec_divergence :
    get_char 51 = ':' ∧ get_char_spec 51 = '.' ∧ get_char 51 ≠ get_char_spec 51 := by decide

set_option maxRecDepth 4000 in
/-- Claim C4 (amended): for every `l` in `0..=255`, `get_char l` is the
palette entry at bucket index `floor(l / (255/N)) = floor(l·N/255)` (divisor
`u8::MAX/N = 25.5`, not `256/N`), clamped to `[0, N-1]`; the clamp is needed
since `l = 255` gives raw index `N`. -/
theorem get_char_bucket :
    ∀ l : Nat, l < 256 →
      get_char l = PALETTE.getD (min (max (l * 10 / 255) 0) (PALETTE.length - 1)) ' ' := by
  decide

/-- Witness for the amended C4: `l = 137` lands in bucket 5 (`'o'`). -/
theorem get_char_bucket_witness : get_char 137 = 'o' ∧ (137 : Nat) < 256 :=
  ⟨get_char_bucket 137 (by decide), by decide⟩

set_option maxRecDepth 4000 in
/-- Claim C5: for every `l` in `0..=255` the clamped index used by `get_char`
is strictly in bounds for `PALETTE` (the lookup returns `some`, so the
source's `PALETTE[...]` cannot panic), and the extremes map to the first
(`' '`) and last (`'#'`) palette entries. -/
theorem get_char_safe :
    ∀ l : Nat, l < 256 →
      PALETTE[min (max (2 * l / 51) 0) (PALETTE.length - 1)]? = some (get_char l) ∧
      get_char 0 = ' ' ∧ get_char 255 = '#' := by
  decide

/-- Witness for C5 at the top edge `l = 255`. -/
theorem get_char_safe_witness :
    PALETTE[min (max (2 * 255 / 51) 0) (PALETTE.length - 1)]? = some (get_char 255) ∧
    get_char 0 = ' ' ∧ get_char 255 = '#' :=
  get_char_safe 255 (by decide)

/-! ### Row-major grid construction: claims C1, C2 and C8 -/

/-- Length of a row-major grid built by mapping over `range h` then
`range w`. -/
theorem grid_length {α : Type} (g : Nat → Nat → α) (w h : Nat) :
    (((List.range h).map (fun y => (List.range w).map (g y))).flatten).length = h * w := by
  induction h with
  | zero => simp
  | succ n ih =>
    rw [List.range_succ, List.map_append, List.flatten_append]
    simp [ih, Nat.succ_mul]

/-- The entry of a row-major grid at flat index `y * w + x` is `g y x`. -/
theorem grid_getElem {α : Type} (g : Nat → Nat → α) (w h x y : Nat)
    (hx : x < w) (hy : y < h) :
    (((List.range h).map (fun y => (List.range w).map (g y))).flatten)[y * w + x]? =
      some (g y x) := by
  induction h with
  | zero => omega
  | succ n ih =>
    rw [List.range_succ, List.map_append, List.flatten_append]
    rcases Nat.lt_or_ge y n with h1 | h1
    · rw [List.getElem?_append_left]
      · exact ih h1
      · rw [grid_length]
        calc y * w + x < (y + 1) * w := by
              rw [Nat.succ_mul]; omega
          _ ≤ n * w := Nat.mul_le_mul_right w h1
    · have hyn : y = n := by omega
      subst hyn
      rw [List.getElem?_append_right (by rw [grid_length]; omega)]
      rw [grid_length]
      simp [List.getElem?_map, List.getElem?_range hx]

/-- The pixel vector built by `from_image`, as an explicit row-major grid:
with `f = None` the source's `if f.is_some()` always takes the `' '` branch,
so each cell is `{ c: ' ', b: Some(rgb(sample)), f: None }`. -/
theorem from_image_pixels_eq (img : Nat → Nat → RGB) (opts : Options) :
    (from_image img opts).pixels =
      ((List.range opts.height).map (fun y =>
        (List.range opts.width).map (fun x =>
          ({ c := ' ', b := some (rgb (img x y)), f := none } : Pixel)))).flatten := by
  simp [from_image]

/-- Claim C1: for every source raster and options with positive dimensions,
`from_image` produces exactly `width * height` cells, in row-major order:
the cell for sample `(x, y)` sits at flat index `y * width + x`. -/
theorem from_image_size_rowMajor (img : Nat → Nat → RGB) (opts : Options)
    (hw : 0 < opts.width) (hh : 0 < opts.height) :
    (from_image img opts).pixels.length = opts.width * opts.height ∧
    ∀ x y, x < opts.width → y < opts.height →
      (from_image img opts).pixels[y * opts.width + x]? =
        some { c := ' ', b := some (rgb (img x y)), f := none } := by
  rw [from_image_pixels_eq]
  constructor
  · rw [grid_length, Nat.mul_comm]
  · intro x y hx hy
    exact grid_getElem _ opts.width opts.height x y hx hy

/-- Witness for C1: a 2×3 render of a constant raster has 6 cells and the
cell at `(x, y) = (1, 2)` (flat index 5) holds the sampled colour. -/
theorem from_image_size_rowMajor_witness :
    (from_image (fun _ _ => (7, 8, 9)) { width := 2, height := 3 }).pixels.length = 2 * 3 ∧
    (from_image (fun _ _ => (7, 8, 9)) { width := 2, height := 3 }).pixels[2 * 2 + 1]? =
      some { c := ' ', b := some (7, 8, 9), f := none } :=
  ⟨(from_image_size_rowMajor (fun _ _ => (7, 8, 9)) { width := 2, height := 3 }
      (by decide) (by decide)).1,
   (from_image_size_rowMajor (fun _ _ => (7, 8, 9)) { width := 2, height := 3 }
      (by decide) (by decide)).2 1 2 (by decide) (by decide)⟩

/-- Claim C2: every cell of `from_image` carries `background = Some` of the
RGB triple sampled for that cell, `foreground = None`, and the space glyph —
the luminance-to-glyph mapping never reaches the stored glyph because the
source hard-wires `f = None` before testing `f.is_some()`. -/
theorem from_image_cells_bg_space (img : Nat → Nat → RGB) (opts : Options)
    (i : Nat) (hi : i < opts.width * opts.height) :
    (from_image img opts).pixels[i]? =
      some { c := ' ',
             b := some (rgb (img (i % opts.width) (i / opts.width))),
             f := none } := by
  have hw : 0 < opts.width := by
    rcases Nat.eq_zero_or_pos opts.width with h | h
    · rw [h] at hi; omega
    · exact h
  have hx : i % opts.width < opts.width := Nat.mod_lt _ hw
  have hy : i / opts.width < opts.height := by
    rw [Nat.div_lt_iff_lt_mul hw, Nat.mul_comm]; exact hi
  have hidx : (i / opts.width) * opts.width + i % opts.width = i := by
    rw [Nat.mul_comm]; exact Nat.div_add_mod i opts.width
  rw [from_image_pixels_eq]
  have h2 := grid_getElem
    (fun y x => ({ c := ' ', b := some (rgb (img x y)), f := none } : Pixel))
    opts.width opts.height (i % opts.width) (i / opts.width) hx hy
  rw [hidx] at h2
  exact h2

/-- Witness for C2: flat index 3 of a 2×3 constant render is the cell for
sample `(x, y) = (1, 1)`. -/
theorem from_image_cells_bg_space_witness :
    (from_image (fun _ _ => (7, 8, 9)) { width := 2, height := 3 }).pixels[3]? =
      some { c := ' ', b := some (7, 8, 9), f := none } :=
  from_image_cells_bg_space (fun _ _ => (7, 8, 9)) { width := 2, height := 3 } 3 (by decide)

/-- Claim C8 counterexample: called with `width = 0` and `height = 0`,
`from_image` raises no error or assertion — it is total and silently returns
an empty `TextImage` whose rendering appends nothing (an empty buffer). -/
theorem from_image_zero_silent :
    (from_image (fun _ _ => (0, 0, 0)) { width := 0, height := 0 }).pixels = [] ∧
    to_buffer (from_image (fun _ _ => (0, 0, 0)) { width := 0, height := 0 }) [] = [] := by
  constructor <;> rfl

/-- Claim C8 (amended): `from_image` does not fail fast on `width = 0` or
`height = 0`; it silently succeeds and produces a `TextImage` with zero
cells (and, for `height = 0`, rendering appends nothing at all). -/
theorem from_image_degenerate_empty (img : Nat → Nat → RGB) (w h : Nat) :
    (from_image img { width := 0, height := h }).pixels.length = 0 ∧
    (from_image img { width := w, height := 0 }).pixels.length = 0 ∧
    to_buffer (from_image img { width := w, height := 0 }) [] = [] := by
  refine ⟨?_, ?_, rfl⟩
  · rw [from_image_pixels_eq]
    show (((List.range h).map _).flatten).length = 0
    rw [grid_length, Nat.mul_zero]
  · rw [from_image_pixels_eq]
    show (((List.range 0).map _).flatten).length = 0
    rw [grid_length, Nat.zero_mul]

/-! ### Buffer rendering: claims C6, C7 and C10 -/

/-- Folding an append of `g b` per element appends the flattened map. -/
theorem foldl_append_flatten {α β : Type} (g : β → List α) (l : List β) (init : List α) :
    l.foldl (fun acc b => acc ++ g b) init = init ++ (l.map g).flatten := by
  induction l generalizing init with
  | nil => simp
  | cons b bs ih =>
    rw [List.foldl_cons, ih]
    simp [List.append_assoc]

/-- Variant with a fixed terminator appended after each element. -/
theorem foldl_append_flatten_term {α β : Type} (g : β → List α) (tl : List α)
    (l : List β) (init : List α) :
    l.foldl (fun acc b => (acc ++ g b) ++ tl) init
      = init ++ (l.map (fun b => g b ++ tl)).flatten := by
  induction l generalizing init with
  | nil => simp
  | cons b bs ih =>
    rw [List.foldl_cons, ih]
    simp [List.append_assoc]

/-- The render loop in closed form: `to_buffer` appends, after the incoming
buffer, the `height` rows in order, each row being its `width` rendered cells
followed by the CRLF terminator. -/
theorem to_buffer_eq (t : TextImage) (buffer : List Char) :
    to_buffer t buffer =
      buffer ++ ((List.range t.height).map (fun y => rowRender t y ++ ['\r', '\n'])).flatten := by
  unfold to_buffer rowRender
  simp only [foldl_append_flatten]
  exact foldl_append_flatten_term _ _ _ _

/-- Claim C10: rendering only appends — the buffer's prior contents are
preserved unchanged as a result prefix and the appended text does not depend
on them, so rendering the same `TextImage` repeatedly appends the same text
each time (the `&self` receiver is embedded as a pure function, so the
`TextImage` itself is untouched by construction). -/
theorem to_buffer_append_only (t : TextImage) (buf : List Char) :
    to_buffer t buf = buf ++ to_buffer t [] ∧
    to_buffer t (to_buffer t buf) = buf ++ (to_buffer t [] ++ to_buffer t []) := by
  have h1 : ∀ b : List Char, to_buffer t b = b ++ to_buffer t [] := by
    intro b
    rw [to_buffer_eq, to_buffer_eq, List.nil_append]
  refine ⟨h1 buf, ?_⟩
  rw [h1 (to_buffer t buf), h1 buf, List.append_assoc]

/-- Claim C7 (escapes modelled from the spec, the styling helper being the
external `colored` crate): a cell with both colours present renders as the
foreground escape `ESC[38;2;r;g;bm`, then the background escape
`ESC[48;2;r;g;bm` — two separate sequences with decimal parameters — then
the glyph, then the reset `ESC[0m`, here shown inside a full render. -/
theorem to_buffer_both_colors (c : Char) (fr fg fb br bg bb : Nat) (buf : List Char) :
    to_buffer { width := 1, height := 1,
                pixels := [{ c := c, b := some (br, bg, bb), f := some (fr, fg, fb) }] } buf =
      buf ++ ((['\x1b', '[', '3', '8', ';', '2', ';']
            ++ (Nat.repr fr).data ++ [';'] ++ (Nat.repr fg).data ++ [';']
            ++ (Nat.repr fb).data ++ ['m'])
          ++ (['\x1b', '[', '4', '8', ';', '2', ';']
            ++ (Nat.repr br).data ++ [';'] ++ (Nat.repr bg).data ++ [';']
            ++ (Nat.repr bb).data ++ ['m'])
          ++ [c] ++ ['\x1b', '[', '0', 'm'] ++ ['\r', '\n']) := by
  rw [to_buffer_eq]
  simp [rowRender, renderPixel, fgEscape, bgEscape, sgrReset, List.range_succ]

/-- Every character produced by `Nat.toDigitsCore` is a `Nat.digitChar`
(or came from the accumulator). -/
theorem toDigitsCore_chars (b : Nat) (fuel : Nat) :
    ∀ (n : Nat) (acc : List Char),
      (∀ c ∈ acc, ∃ m, c = Nat.digitChar m) →
      ∀ c ∈ Nat.toDigitsCore b fuel n acc, ∃ m, c = Nat.digitChar m := by
  induction fuel with
  | zero =>
    intro n acc hacc c hc
    exact hacc c (by simpa [Nat.toDigitsCore] using hc)
  | succ f ih =>
    intro n acc hacc c hc
    simp only [Nat.toDigitsCore] at hc
    by_cases h : n / b = 0
    · rw [if_pos h] at hc
      rcases List.mem_cons.mp hc with h1 | h1
      · exact ⟨n % b, h1⟩
      · exact hacc c h1
    · rw [if_neg h] at hc
      refine ih (n / b) (Nat.digitChar (n % b) :: acc) ?_ c hc
      intro d hd
      rcases List.mem_cons.mp hd with h1 | h1
      · exact ⟨n % b, h1⟩
      · exact hacc d h1

/-- Above the hexadecimal range, `Nat.digitChar` falls through to `'*'`. -/
theorem digitChar_ge16 (m : Nat) (h : 16 ≤ m) : Nat.digitChar m = '*' := by
  unfold Nat.digitChar
  repeat rw [if_neg (by omega)]

/-- `Nat.digitChar` never yields a CR or LF. -/
theorem digitChar_not_crlf (m : Nat) : Nat.digitChar m ≠ '\r' ∧ Nat.digitChar m ≠ '\n' := by
  rcases Nat.lt_or_ge m 16 with h | h
  · interval_cases m <;> decide
  · rw [digitChar_ge16 m h]
    decide

/-- Decimal renderings of naturals contain neither CR nor LF. -/
theorem repr_not_crlf (n : Nat) : '\r' ∉ (Nat.repr n).data ∧ '\n' ∉ (Nat.repr n).data := by
  have hchars : ∀ c ∈ (Nat.repr n).data, ∃ m, c = Nat.digitChar m := by
    have hd : (Nat.repr n).data = Nat.toDigitsCore 10 (n + 1) n [] := rfl
    rw [hd]
    exact toDigitsCore_chars 10 (n + 1) n [] (by intro c hc; cases hc)
  constructor <;> intro hmem
  · rcases hchars _ hmem with ⟨m, hm⟩
    exact (digitChar_not_crlf m).1 hm.symm
  · rcases hchars _ hmem with ⟨m, hm⟩
    exact (digitChar_not_crlf m).2 hm.symm

/-- The foreground escape contains neither CR nor LF. -/
theorem fgEscape_not_crlf (r g b : Nat) : '\r' ∉ fgEscape r g b ∧ '\n' ∉ fgEscape r g b := by
  constructor <;> intro hmem <;>
    simp only [fgEscape, List.mem_append] at hmem <;>
    rcases hmem with ((((((h | h) | h) | h) | h) | h) | h) <;>
      first
        | exact absurd h (by decide)
        | exact absurd h (repr_not_crlf _).1
        | exact absurd h (repr_not_crlf _).2

/-- The background escape contains neither CR nor LF. -/
theorem bgEscape_not_crlf (r g b : Nat) : '\r' ∉ bgEscape r g b ∧ '\n' ∉ bgEscape r g b := by
  constructor <;> intro hmem <;>
    simp only [bgEscape, List.mem_append] at hmem <;>
    rcases hmem with ((((((h | h) | h) | h) | h) | h) | h) <;>
      first
        | exact absurd h (by decide)
        | exact absurd h (repr_not_crlf _).1
        | exact absurd h (repr_not_crlf _).2

/-- A character that is not the glyph and appears in none of the escape
pieces does not appear in a rendered cell. -/
theorem renderPixel_char_notin (p : Pixel) (ch : Char) (hch : p.c ≠ ch)
    (h1 : ∀ r g b, ch ∉ fgEscape r g b) (h2 : ∀ r g b, ch ∉ bgEscape r g b)
    (h3 : ch ∉ sgrReset) : ch ∉ renderPixel p := by
  obtain ⟨c, b, f⟩ := p
  intro hmem
  rcases f with _ | ⟨fr, fg, fb⟩ <;> rcases b with _ | ⟨br, bg, bb⟩ <;>
    simp only [renderPixel, List.mem_append, List.mem_singleton] at hmem
  · exact hch hmem.symm
  · rcases hmem with (h | h) | h
    · exact h2 _ _ _ h
    · exact hch h.symm
    · exact h3 h
  · rcases hmem with (h | h) | h
    · exact h1 _ _ _ h
    · exact hch h.symm
    · exact h3 h
  · rcases hmem with ((h | h) | h) | h
    · exact h1 _ _ _ h
    · exact h2 _ _ _ h
    · exact hch h.symm
    · exact h3 h

/-- A rendered cell whose glyph is not CR/LF contains neither CR nor LF. -/
theorem renderPixel_not_crlf (p : Pixel) (hcr : p.c ≠ '\r') (hlf : p.c ≠ '\n') :
    '\r' ∉ renderPixel p ∧ '\n' ∉ renderPixel p :=
  ⟨renderPixel_char_notin p '\r' hcr (fun r g b => (fgEscape_not_crlf r g b).1)
      (fun r g b => (bgEscape_not_crlf r g b).1) (by decide),
   renderPixel_char_notin p '\n' hlf (fun r g b => (fgEscape_not_crlf r g b).2)
      (fun r g b => (bgEscape_not_crlf r g b).2) (by decide)⟩

/-- Prepending a non-CR character does not change the CRLF count. -/
theorem countCRLF_cons_of_ne (c : Char) (l : List Char) (hc : c ≠ '\r') :
    countCRLF (c :: l) = countCRLF l := by
  cases l with
  | nil => rfl
  | cons d rest => simp [countCRLF, hc]

/-- Prepending a CR-free segment does not change the CRLF count. -/
theorem countCRLF_append_cr_free (a l : List Char) (ha : '\r' ∉ a) :
    countCRLF (a ++ l) = countCRLF l := by
  induction a with
  | nil => rfl
  | cons c rest ih =>
    have hc : c ≠ '\r' := fun h => ha (h ▸ List.mem_cons_self c rest)
    rw [List.cons_append, countCRLF_cons_of_ne c _ hc,
      ih (fun h => ha (List.mem_cons_of_mem c h))]

/-- A leading CRLF contributes exactly one occurrence. -/
theorem countCRLF_crlf_cons (l : List Char) :
    countCRLF ('\r' :: '\n' :: l) = 1 + countCRLF l := by
  have h1 : countCRLF ('\r' :: '\n' :: l) = 1 + countCRLF ('\n' :: l) := by
    simp [countCRLF]
  rw [h1, countCRLF_cons_of_ne '\n' l (by decide)]

/-- Flattening rows that are CR/LF-free and individually CRLF-terminated
yields one CRLF, one LF and one CR per row. -/
theorem crlf_rows (rows : List (List Char)) (hr : ∀ r ∈ rows, '\r' ∉ r ∧ '\n' ∉ r) :
    countCRLF ((rows.map (fun r => r ++ ['\r', '\n'])).flatten) = rows.length ∧
    ((rows.map (fun r => r ++ ['\r', '\n'])).flatten).count '\n' = rows.length ∧
    ((rows.map (fun r => r ++ ['\r', '\n'])).flatten).count '\r' = rows.length := by
  induction rows with
  | nil => refine ⟨rfl, rfl, rfl⟩
  | cons r rest ih =>
    have hr1 := hr r (List.mem_cons_self r rest)
    have hrest := ih (fun s hs => hr s (List.mem_cons_of_mem r hs))
    simp only [List.map_cons, List.flatten_cons, List.length_cons]
    have hassoc : (r ++ ['\r', '\n']) ++ (rest.map (fun s => s ++ ['\r', '\n'])).flatten
        = r ++ ('\r' :: '\n' :: (rest.map (fun s => s ++ ['\r', '\n'])).flatten) := by
      simp [List.append_assoc]
    rw [hassoc]
    refine ⟨?_, ?_, ?_⟩
    · rw [countCRLF_append_cr_free r _ hr1.1, countCRLF_crlf_cons, hrest.1]
      omega
    · rw [List.count_append, List.count_eq_zero.mpr hr1.2,
        List.count_cons_of_ne (by decide), List.count_cons_self, hrest.2.1]
      omega
    · rw [List.count_append, List.count_eq_zero.mpr hr1.1,
        List.count_cons_self, List.count_cons_of_ne (by decide), hrest.2.2]
      omega

/-- Each pixel actually read by the renderer (in range, or the totalising
default) has a glyph that is neither CR nor LF, given that every stored
pixel does. -/
theorem getD_glyph_not_crlf (t : TextImage)
    (hglyph : ∀ p ∈ t.pixels, p.c ≠ '\r' ∧ p.c ≠ '\n') (i : Nat) :
    (t.pixels.getD i dfltPixel).c ≠ '\r' ∧ (t.pixels.getD i dfltPixel).c ≠ '\n' := by
  rw [List.getD_eq_getElem?_getD]
  cases hcase : t.pixels[i]? with
  | none => simp [dfltPixel]
  | some p =>
    have hp := hglyph p (List.get?_mem (by simpa [List.get?_eq_getElem?] using hcase))
    simpa using hp

/-- A row of the rendering contains neither CR nor LF when no stored glyph
is CR or LF. -/
theorem rowRender_not_crlf (t : TextImage)
    (hglyph : ∀ p ∈ t.pixels, p.c ≠ '\r' ∧ p.c ≠ '\n') (y : Nat) :
    '\r' ∉ rowRender t y ∧ '\n' ∉ rowRender t y := by
  constructor <;> intro hmem <;>
    rcases List.mem_flatten.mp hmem with ⟨seg, hseg, hcmem⟩ <;>
    rcases List.mem_map.mp hseg with ⟨x, _, rfl⟩
  · exact (renderPixel_not_crlf _ (getD_glyph_not_crlf t hglyph _).1
      (getD_glyph_not_crlf t hglyph _).2).1 hcmem
  · exact (renderPixel_not_crlf _ (getD_glyph_not_crlf t hglyph _).1
      (getD_glyph_not_crlf t hglyph _).2).2 hcmem

/-- Claim C6: provided no stored glyph is a CR or LF (true of every
`TextImage` the constructor can build, whose glyphs are all `' '`), the text
appended by `to_buffer` is exactly `height` rows, each exactly `width`
rendered cells followed by the CRLF pair; it contains exactly `height`
occurrences of CRLF, and exactly `height` line-feeds in total — so no row
is terminated by a lone LF. -/
theorem to_buffer_crlf_rows (t : TextImage)
    (hglyph : ∀ p ∈ t.pixels, p.c ≠ '\r' ∧ p.c ≠ '\n') :
    to_buffer t [] =
      ((List.range t.height).map (fun y => rowRender t y ++ ['\r', '\n'])).flatten ∧
    countCRLF (to_buffer t []) = t.height ∧
    (to_buffer t []).count '\n' = t.height ∧
    (to_buffer t []).count '\r' = t.height := by
  have heq : to_buffer t [] =
      ((List.range t.height).map (fun y => rowRender t y ++ ['\r', '\n'])).flatten := by
    rw [to_buffer_eq, List.nil_append]
  have hshape : (List.range t.height).map (fun y => rowRender t y ++ ['\r', '\n'])
      = ((List.range t.height).map (rowRender t)).map (fun r => r ++ ['\r', '\n']) := by
    rw [List.map_map]
    rfl
  have hrows : ∀ r ∈ (List.range t.height).map (rowRender t), '\r' ∉ r ∧ '\n' ∉ r := by
    intro r hrmem
    rcases List.mem_map.mp hrmem with ⟨y, _, rfl⟩
    exact rowRender_not_crlf t hglyph y
  have hmain := crlf_rows ((List.range t.height).map (rowRender t)) hrows
  have hlen : ((List.range t.height).map (rowRender t)).length = t.height := by
    rw [List.length_map, List.length_range]
  rw [hlen] at hmain
  rw [heq, hshape]
  exact ⟨rfl, hmain.1, hmain.2.1, hmain.2.2⟩

/-- Witness for C6: a 1×1 image renders with exactly one CRLF. -/
theorem to_buffer_crlf_rows_witness :
    countCRLF (to_buffer ⟨1, 1, [⟨' ', some (5, 6, 7), none⟩]⟩ []) = 1 ∧
    (to_buffer ⟨1, 1, [⟨' ', some (5, 6, 7), none⟩]⟩ []).count '\n' = 1 :=
  ⟨(to_buffer_crlf_rows _ (by decide)).2.1, (to_buffer_crlf_rows _ (by decide)).2.2.1⟩

end Txtimg
